import Mathlib

/-!
Verification of the clonotype-distance engine of scirpy
(src/scirpy/ir_dist/_clonotype_neighbors.py and src/scirpy/tl/_ir_query.py).

The numeric aggregation code works on numpy float arrays whose values are
non-negative finite distances together with the two sentinels `np.inf` and
`np.nan`.  We embed such a float as the inductive type `FVal`; machine
floating point is otherwise exact on the values involved (small rationals,
comparisons, min/max), so rationals model the arithmetic faithfully.
-/

namespace Scirpy

/-- A numpy float as used by `_dist_for_clonotype`: `nan` (missing), `inf`
(the stand-in that `reduce_and`/`reduce_or` substitute for 0), or a finite
rational distance value. -/
inductive FVal where
  | nan : FVal
  | inf : FVal
  | fin : ℚ → FVal
  deriving DecidableEq, Repr

/-- `np.isnan`. -/
def isNan : FVal → Bool
  | .nan => true
  | _ => false

/-- The assignment `tmp_array[tmp_array == 0] = np.inf` acting on one value. -/
def zeroToInf (v : FVal) : FVal := if v = FVal.fin 0 then FVal.inf else v

/-- The assignment `tmp_array[np.isinf(tmp_array)] = 0` acting on one value. -/
def infToZero (v : FVal) : FVal := if v = FVal.inf then FVal.fin 0 else v

/-- Binary minimum with numpy semantics on the values that occur here:
`nan` is absorbing (plain `min`/`np.minimum` propagate nan; `np.nanmin`
filters nans before we ever fold), `inf` is above every finite value. -/
def fmin2 : FVal → FVal → FVal
  | .nan, _ => .nan
  | _, .nan => .nan
  | .inf, x => x
  | x, .inf => x
  | .fin a, .fin b => .fin (min a b)

/-- Binary maximum, dual to `fmin2`. -/
def fmax2 : FVal → FVal → FVal
  | .nan, _ => .nan
  | _, .nan => .nan
  | .inf, _ => .inf
  | _, .inf => .inf
  | .fin a, .fin b => .fin (max a b)

/-- `np.nanmin` along one column: ignore nans; if every entry is nan the
result is nan (numpy emits a warning and returns nan). -/
def nanmin (l : List FVal) : FVal :=
  if l.all (fun v => isNan v) then FVal.nan
  else (l.filter (fun v => !isNan v)).foldl fmin2 FVal.inf

/-- `np.nanmax` along one column: ignore nans; all-nan gives nan. -/
def nanmax (l : List FVal) : FVal :=
  match l.filter (fun v => !isNan v) with
  | [] => FVal.nan
  | h :: t => t.foldl fmax2 h

/-- `np.multiply(v, b)` for a boolean mask entry `b`, applied after the
`isinf -> 0` substitution: `v * 1 = v`; `v * 0` is `0` for finite `v` and
`nan` for `nan` (and for `inf`, since `inf * 0 = nan` in numpy). -/
def maskMul (v : FVal) (b : Bool) : FVal :=
  if b then v else match v with | .fin _ => .fin 0 | _ => .nan

/-- Column `k` of the stacked operand rows (`np.vstack(args)[:, k]`). -/
def colAt (args : List (List FVal)) (k : ℕ) : List FVal :=
  args.map (fun a => a.getD k FVal.nan)

/-- `reduce_or` from `_dist_for_clonotype` (lines 264-270): per column,
replace zeros by `inf`, take `np.nanmin`, then turn `inf` back into 0. -/
def reduceOr (args : List (List FVal)) : List FVal :=
  (List.range (args.headD []).length).map
    (fun k => infToZero (nanmin ((colAt args k).map zeroToInf)))

/-- The body of `reduce_and` (lines 252-262) once the clonotype's own
missing-chain count `chainCount` has been computed: per column, replace
zeros by `inf`, compare the nan count of the column against `chainCount`
(the `same_count_mask`), take `np.nanmax`, replace `inf` by 0, and multiply
with the mask. -/
def reduceAndCount (chainCount : ℕ) (args : List (List FVal)) : List FVal :=
  (List.range (args.headD []).length).map
    (fun k =>
      let col := (colAt args k).map zeroToInf
      maskMul (infToZero (nanmax col))
        (col.countP (fun v => isNan v) == chainCount))

/-! ## The clonotype table (`_make_clonotype_table`)

A cell record carries a unique obs name, the `has_ir` flag, and its obs
columns; a missing (NaN) value is `none`.  `_make_clonotype_table` casts
every column with `astype(str)` and overwrites remaining missing values
with the literal string `"nan"` (lines 83-85): `normNa` below is that
normalisation of a single value. -/

structure Cell where
  name : String
  has_ir : Bool
  attrs : String → Option String

/-- `astype(str)` followed by the `_is_na -> "nan"` overwrite of lines
83-85: a missing value becomes the string `"nan"`, a present string value
is its own string representation. -/
def normNa (v : Option String) : String :=
  match v with
  | none => "nan"
  | some s => s

inductive Arm where
  | VJ : Arm
  | VDJ : Arm
  deriving DecidableEq, Repr

inductive ReceptorArms where
  | VJ : ReceptorArms
  | VDJ : ReceptorArms
  | all : ReceptorArms
  | any : ReceptorArms
  deriving DecidableEq, Repr

inductive DualIr where
  | primary_only : DualIr
  | all : DualIr
  | any : DualIr
  deriving DecidableEq, Repr

/-- The configuration accepted by `ClonotypeNeighbors.__init__`
(lines 21-41): arm policy, dual-IR policy, same-v-gene toggle, optional
grouping columns (`within_group`), and the sequence column key. -/
structure Config where
  receptor_arms : ReceptorArms
  dual_ir : DualIr
  same_v_gene : Bool
  within_group : Option (List String)
  sequence_key : String

def armName : Arm → String
  | .VJ => "VJ"
  | .VDJ => "VDJ"

/-- `self._receptor_arm_cols` (lines 47-51). -/
def armCols (c : Config) : List Arm :=
  match c.receptor_arms with
  | .VJ => [Arm.VJ]
  | .VDJ => [Arm.VDJ]
  | .all => [Arm.VJ, Arm.VDJ]
  | .any => [Arm.VJ, Arm.VDJ]

/-- `self._dual_ir_cols` (line 52). -/
def dualIrCols (c : Config) : List ℕ :=
  if c.dual_ir = DualIr.primary_only then [1] else [1, 2]

/-- The interpolated column name `IR_{arm}_{i}_{sequence_key}`. -/
def cdr3Col (seqKey : String) (arm : Arm) (i : ℕ) : String :=
  "IR_" ++ armName arm ++ "_" ++ toString i ++ "_" ++ seqKey

/-- The interpolated column name `IR_{arm}_{i}_v_gene`. -/
def vGeneCol (arm : Arm) (i : ℕ) : String :=
  "IR_" ++ armName arm ++ "_" ++ toString i ++ "_v_gene"

/-- `self._cdr3_cols` (lines 54-56), in `itertools.product` order. -/
def cdr3Cols (c : Config) : List String :=
  (armCols c).flatMap (fun a => (dualIrCols c).map (fun i => cdr3Col c.sequence_key a i))

/-- `self._v_gene_cols` (lines 57-58); empty unless `same_v_gene`. -/
def vGeneCols (c : Config) : List String :=
  if c.same_v_gene then
    (armCols c).flatMap (fun a => (dualIrCols c).map (fun i => vGeneCol a i))
  else []

/-- `clonotype_cols` (lines 76-78): sequence columns, then v-gene columns,
then the `within_group` columns. -/
def clonotypeCols (c : Config) : List String :=
  cdr3Cols c ++ vGeneCols c ++ (c.within_group.getD [])

/-- The grouping key of one cell: its normalised values at the clonotype
columns, in column order. -/
def keyOf (cols : List String) (x : Cell) : List String :=
  cols.map (fun col => normNa (x.attrs col))

/-- `groupby(clonotype_cols, sort=False).size().index`: the distinct keys
in order of first appearance. -/
def dedupKeys (l : List (List String)) : List (List String) :=
  l.foldl (fun acc k => if k ∈ acc then acc else acc ++ [k]) []

/-- A key of the pandas `groupby.indices` dict.  With a single grouping
column pandas keys that dict by the scalar column value; with two or more
columns it keys it by the tuple of values.  `itertuples` on the unique-value
frame always produces tuples. -/
inductive PyKey where
  | scalar : String → PyKey
  | tuple : List String → PyKey
  deriving DecidableEq, Repr

/-- The key under which a group appears in `clonotype_groupby.indices`. -/
def indicesKey (ncols : ℕ) (k : List String) : PyKey :=
  if ncols = 1 then PyKey.scalar (k.headD "") else PyKey.tuple k

/-- The deduplicated clonotype table: its column names and its rows (one
normalised value per column). -/
structure CTable where
  cols : List String
  rows : List (List String)
  deriving DecidableEq, Repr

/-- First position of `a` in `l` (`list.index` / `Index.get_loc`). -/
def findPos {α : Type} [DecidableEq α] (l : List α) (a : α) : Option ℕ :=
  match l with
  | [] => none
  | x :: xs => if x = a then some 0 else (findPos xs a).map (fun k => k + 1)

/-- `self.clonotypes[col].values[r]`: the table value of clonotype `r` in
column `col`. -/
def getVal (T : CTable) (r : ℕ) (col : String) : String :=
  match findPos T.cols col with
  | some k => (T.rows.getD r []).getD k ""
  | none => ""

/-- The consistency check of lines 119-129: it runs only when `"2"` is among
the dual-IR chain indices, and scans each considered receptor arm for a
clonotype whose primary-chain sequence is `"nan"` while the secondary-chain
sequence is not. -/
def secondaryViolation (c : Config) (T : CTable) : Bool :=
  (dualIrCols c).contains 2 &&
    (armCols c).any (fun a =>
      (List.range T.rows.length).any (fun r =>
        getVal T r (cdr3Col c.sequence_key a 1) == "nan" &&
          !(getVal T r (cdr3Col c.sequence_key a 2) == "nan")))

/-- `obs_filtered` (line 80): the cells flagged as having receptor data. -/
def obsFiltered (cells : List Cell) : List Cell :=
  cells.filter (fun x => x.has_ir)

/-- The deduplicated grouping keys (lines 87-91), in first-appearance
order (`sort=False`). -/
def clonotypeKeys (c : Config) (cells : List Cell) : List (List String) :=
  dedupKeys ((obsFiltered cells).map (fun x => keyOf (clonotypeCols c) x))

/-- The clonotype table assembled from the deduplicated keys. -/
def clonotypeTable (c : Config) (cells : List Cell) : CTable :=
  ⟨clonotypeCols c, clonotypeKeys c cells⟩

/-- `self.cell_indices` (lines 101-104): for each clonotype key tuple (as
produced by `itertuples`), the obs names at the row indices stored in
`clonotype_groupby.indices` under that tuple — retrieved with
`.get(ct_tuple, [])`, so a tuple that is not literally a key of the dict
yields the empty list. -/
def cellIndices (c : Config) (cells : List Cell) : List (List String) :=
  (clonotypeKeys c cells).map (fun ct =>
    ((obsFiltered cells).filter (fun x =>
      indicesKey (clonotypeCols c).length (keyOf (clonotypeCols c) x)
        == PyKey.tuple ct)).map Cell.name)

/-- `_make_clonotype_table` (lines 71-131): validate obs-name uniqueness,
filter to `has_ir` cells, normalise missing values, deduplicate the grouping
keys (in first-appearance order), build the per-clonotype cell-index lists
through the `groupby.indices` dict, and run the secondary-chain consistency
assertion.  The result is the clonotype table together with the list of
cell-name lists, one per clonotype row.

The `within_group` tuple-folding of lines 106-114 only reshapes columns: it
runs after the grouping and after `cell_indices` is built, removes the
grouping columns and re-adds their value tuple as one trailing column, and
leaves every sequence column untouched; no later code in the file reads the
folded column, so the table here keeps the original columns. -/
def makeClonotypeTable (c : Config) (cells : List Cell) :
    Except String (CTable × List (List String)) :=
  if (cells.map Cell.name).Nodup then
    if (clonotypeKeys c cells).isEmpty then
      Except.error "No cells with IR information found"
    else if secondaryViolation c (clonotypeTable c cells) then
      Except.error "There must not be a secondary chain if there is no primary one"
    else
      Except.ok (clonotypeTable c cells, cellIndices c cells)
  else
    Except.error "Obs names need to be unique!"

/-- `true` on `Except.ok`. -/
def exceptOk {α : Type} (x : Except String α) : Bool :=
  match x with
  | Except.ok _ => true
  | Except.error _ => false

/-- Unwrap an `Except.ok`, with a default for the error case. -/
def getOk {α : Type} (x : Except String α) (d : α) : α :=
  match x with
  | Except.ok v => v
  | Except.error _ => d

/-! ## The per-clonotype aggregation (`_dist_for_clonotype`) -/

/-- A registered distance matrix: its ordered label array and its entries
(0 means "no recorded neighbor"). -/
structure DistMat where
  labels : List String
  entry : ℕ → ℕ → ℚ

/-- Modelled from the spec: the `lookup` operation of
`DoubleLookupNeighborFinder` (defined in `scirpy/ir_dist/_util.py`, which is
not among the provided source files).  Per spec section 4.3, the value the
returned sparse row holds at a candidate clonotype is found by resolving the
querying clonotype's column value to an index in the matrix's label array,
resolving the candidate's column value likewise, and reading that matrix
entry; a value with no corresponding label yields an empty/all-zero result,
and entries are 0 wherever no matching label/distance exists. -/
def lookupVal (m : DistMat) (a b : String) : ℚ :=
  match findPos m.labels a, findPos m.labels b with
  | some i, some j => m.entry i j
  | _, _ => 0

/-- The state `_dist_for_clonotype` reads: the configuration and the
per-arm sequence distance matrices from `adata.uns[distance_key]`
(registered in `_add_distance_matrices`, lines 136-141).  The v-gene and
within-group identity matrices registered in lines 143-158 are omitted
because no code in `_dist_for_clonotype` reads their lookup tables (the
block that would apply them, lines 308-326, is commented out). -/
structure DistEnv where
  cfg : Config
  dmat : Arm → DistMat

/-- The sequence of clonotype `r` for chain slot `i` of `arm`. -/
def seqOf (c : Config) (T : CTable) (r : ℕ) (arm : Arm) (i : ℕ) : String :=
  getVal T r (cdr3Col c.sequence_key arm i)

/-- `chain_ids` (lines 221-225). -/
def chainIds (c : Config) : List (ℕ × ℕ) :=
  if c.dual_ir = DualIr.primary_only then [(1, 1)]
  else [(1, 1), (2, 2), (1, 2), (2, 1)]

/-- The keys of the `lookup` dict (lines 220-231): each considered arm
crossed with each chain-id pair. -/
def lookupPairs (c : Config) : List (Arm × ℕ × ℕ) :=
  (armCols c).flatMap (fun a => (chainIds c).map (fun p => (a, p.1, p.2)))

/-- The value of the lookup row `lookup[(arm, c1, c2)]` for query clonotype
`ct` at candidate clonotype `j` (`neighbor_finder.lookup(ct_id, arm_c1,
arm_c2)`, lines 227-231). -/
def lookupRowVal (e : DistEnv) (T : CTable) (ct j : ℕ) (arm : Arm) (c1 c2 : ℕ) : ℚ :=
  lookupVal (e.dmat arm) (seqOf e.cfg T ct arm c1) (seqOf e.cfg T j arm c2)

/-- `has_distance` (lines 233-234): the candidate columns at which at least
one of the lookup rows is nonzero, in ascending order. -/
def hasDistance (e : DistEnv) (T : CTable) (ct : ℕ) : List ℕ :=
  (List.range T.rows.length).filter (fun j =>
    (lookupPairs e.cfg).any (fun p =>
      !(lookupRowVal e T ct j p.1 p.2.1 p.2.2 == 0)))

/-- `make_tmp_res(tmp_arm, c1, c2)` (lines 239-250): over the
`has_distance` columns, the lookup value, except `nan` where the candidate
clonotype's chain `c2` sequence is `"nan"`. -/
def makeTmpRes (e : DistEnv) (T : CTable) (ct : ℕ) (hd : List ℕ)
    (arm : Arm) (c1 c2 : ℕ) : List FVal :=
  hd.map (fun j =>
    if seqOf e.cfg T j arm c2 = "nan" then FVal.nan
    else FVal.fin (lookupRowVal e T ct j arm c1 c2))

/-- `chain_count` of `reduce_and` (lines 254-256): how many of the
clonotype's own values at `cols` are `"nan"`. -/
def chainCount (T : CTable) (ct : ℕ) (cols : List String) : ℕ :=
  (cols.map (fun col => getVal T ct col)).countP (fun v => v == "nan")

/-- `reduce_and(*args, cols=cols)` for clonotype `ct` (lines 252-262). -/
def reduceAnd (T : CTable) (ct : ℕ) (cols : List String)
    (args : List (List FVal)) : List FVal :=
  reduceAndCount (chainCount T ct cols) args

/-- The per-arm result `tmp_res` (lines 273-295), by dual-IR policy. -/
def armRes (e : DistEnv) (T : CTable) (ct : ℕ) (hd : List ℕ) (arm : Arm) : List FVal :=
  let pairCols := [cdr3Col e.cfg.sequence_key arm 1, cdr3Col e.cfg.sequence_key arm 2]
  match e.cfg.dual_ir with
  | DualIr.primary_only => makeTmpRes e T ct hd arm 1 1
  | DualIr.all =>
      reduceOr
        [reduceAnd T ct pairCols [makeTmpRes e T ct hd arm 1 1, makeTmpRes e T ct hd arm 2 2],
         reduceAnd T ct pairCols [makeTmpRes e T ct hd arm 1 2, makeTmpRes e T ct hd arm 2 1]]
  | DualIr.any =>
      reduceOr
        [makeTmpRes e T ct hd arm 1 1, makeTmpRes e T ct hd arm 1 2,
         makeTmpRes e T ct hd arm 2 2, makeTmpRes e T ct hd arm 2 1]

/-- The final per-clonotype data vector `res` (lines 297-306): the arm
results combined with `reduce_and` when `receptor_arms == "all"` and with
`reduce_or` otherwise, the AND gate counting only the primary-chain columns
of each arm. -/
def distResVals (e : DistEnv) (T : CTable) (ct : ℕ) : List FVal :=
  let hd := hasDistance e T ct
  let rs := (armCols e.cfg).map (fun a => armRes e T ct hd a)
  let armSeqCols := (armCols e.cfg).map (fun a => cdr3Col e.cfg.sequence_key a 1)
  if e.cfg.receptor_arms = ReceptorArms.all then reduceAnd T ct armSeqCols rs
  else reduceOr rs

/-- The sparse row returned by `_dist_for_clonotype` (lines 329-331):
`final_res` has the sparsity pattern of `has_distance` and carries `res` as
its stored data, in column order. -/
def sparseRow (e : DistEnv) (T : CTable) (ct : ℕ) : List (ℕ × FVal) :=
  (hasDistance e T ct).zip (distResVals e T ct)

/-- The same row read densely: the value of `final_res` at column `j`
(stored value where `j` is a `has_distance` column, 0 elsewhere). -/
def distRowDense (e : DistEnv) (T : CTable) (ct : ℕ) : List FVal :=
  (List.range T.rows.length).map (fun j =>
    match findPos (hasDistance e T ct) j with
    | some k => (distResVals e T ct).getD k (FVal.fin 0)
    | none => FVal.fin 0)

/-- `dist.eliminate_zeros()` (line 203): drop every stored entry whose
value is exactly 0. -/
def eliminateZeros (rows : List (List (ℕ × FVal))) : List (List (ℕ × FVal)) :=
  rows.map (fun row => row.filter (fun p => !(p.2 == FVal.fin 0)))

/-- `compute_distances` (lines 182-205): one aggregator row per clonotype
index in table order, stacked, with explicit zeros removed. -/
def computeDistances (e : DistEnv) (T : CTable) : List (List (ℕ × FVal)) :=
  eliminateZeros ((List.range T.rows.length).map (fun i => sparseRow e T i))

/-! ## Concrete instances used by counterexamples and witnesses -/

/-- Identity-metric distance matrix over the single sequence `"AAA"`
(self-distance 1, the scirpy convention for the identity metric). -/
def dmatAAA : DistMat := ⟨["AAA"], fun i j => if i = 0 ∧ j = 0 then 1 else 0⟩

/-- Identity-metric distance matrix over `"AAA"` and `"BBB"`. -/
def dmatAB : DistMat := ⟨["AAA", "BBB"], fun i j => if i = j then 1 else 0⟩

/-- `within_group=["sample"]`, one VJ arm, primary chains only. -/
def cfgGroup : Config :=
  ⟨ReceptorArms.VJ, DualIr.primary_only, false, some ["sample"], "junction_aa"⟩

def cellG1 : Cell :=
  ⟨"cell1", true, fun col =>
    if col = "IR_VJ_1_junction_aa" then some "AAA"
    else if col = "sample" then some "P1" else none⟩

def cellG2 : Cell :=
  ⟨"cell2", true, fun col =>
    if col = "IR_VJ_1_junction_aa" then some "AAA"
    else if col = "sample" then some "P2" else none⟩

/-- The clonotype table built from `cellG1`/`cellG2`: identical sequences,
distinct `sample` values. -/
def tblGroup : CTable :=
  ⟨["IR_VJ_1_junction_aa", "sample"], [["AAA", "P1"], ["AAA", "P2"]]⟩

def envGroup : DistEnv := ⟨cfgGroup, fun _ => dmatAAA⟩

/-- `same_v_gene=True`, one VJ arm, primary chains only. -/
def cfgVGene : Config :=
  ⟨ReceptorArms.VJ, DualIr.primary_only, true, none, "junction_aa"⟩

def cellV1 : Cell :=
  ⟨"cell1", true, fun col =>
    if col = "IR_VJ_1_junction_aa" then some "AAA"
    else if col = "IR_VJ_1_v_gene" then some "V1" else none⟩

def cellV2 : Cell :=
  ⟨"cell2", true, fun col =>
    if col = "IR_VJ_1_junction_aa" then some "AAA"
    else if col = "IR_VJ_1_v_gene" then some "V2" else none⟩

/-- The clonotype table built from `cellV1`/`cellV2`: identical CDR3,
distinct v-genes. -/
def tblVGene : CTable :=
  ⟨["IR_VJ_1_junction_aa", "IR_VJ_1_v_gene"], [["AAA", "V1"], ["AAA", "V2"]]⟩

def envVGene : DistEnv := ⟨cfgVGene, fun _ => dmatAAA⟩

/-- The minimal configuration with a single clonotype column: one arm,
primary chains only, no v-gene columns, no grouping columns. -/
def cfgSingle : Config :=
  ⟨ReceptorArms.VJ, DualIr.primary_only, false, none, "junction_aa"⟩

/-- One receptor-bearing cell with a primary VJ sequence. -/
def cellSingle : Cell :=
  ⟨"cell1", true, fun col => if col = "IR_VJ_1_junction_aa" then some "AAA" else none⟩

/-- A cell with a secondary VJ chain but no primary VJ chain. -/
def cellOrphan : Cell :=
  ⟨"cellX", true, fun col => if col = "IR_VJ_2_junction_aa" then some "CCC" else none⟩

/-- Like `cfgSingle` but with `dual_ir="all"`. -/
def cfgDualAll : Config :=
  ⟨ReceptorArms.VJ, DualIr.all, false, none, "junction_aa"⟩

/-- Two clonotypes with different sequences under the identity metric. -/
def tblTwo : CTable := ⟨["IR_VJ_1_junction_aa"], [["AAA"], ["BBB"]]⟩

def envTwo : DistEnv := ⟨cfgSingle, fun _ => dmatAB⟩

/-- A one-row table whose two chain sequences are both present, used to
exercise `chain_count = 0`. -/
def tblChains : CTable :=
  ⟨["IR_VJ_1_junction_aa", "IR_VJ_2_junction_aa"], [["AAA", "BBB"]]⟩

/-- The finite values of a column, in order. -/
def finVals (l : List FVal) : List ℚ :=
  l.filterMap (fun v => match v with | .fin q => some q | _ => none)

/-- The nonzero finite candidate values of a column, in order. -/
def nonzeros (l : List FVal) : List ℚ :=
  l.filterMap (fun v =>
    match v with
    | .fin q => if q = 0 then none else some q
    | _ => none)

/-- A Python call shape: the number of positional arguments passed after
`self`, and the keyword-argument names. -/
structure PyCall where
  npos : ℕ
  kwargs : List String

/-- `ClonotypeNeighbors.__init__` (lines 21-32) takes one positional
parameter (`adata`) after `self`; everything else is keyword-only. -/
def clonotypeNeighborsInitPos : ℕ := 1

/-- The keyword parameter names `ClonotypeNeighbors.__init__` accepts
(lines 25-31). -/
def clonotypeNeighborsInitKw : List String :=
  ["receptor_arms", "dual_ir", "same_v_gene", "within_group",
   "distance_key", "sequence_key", "n_jobs"]

/-- The constructor call made by `ir_query`
(src/scirpy/tl/_ir_query.py, lines 81-92): two positional arguments
(`adata`, `reference`) and these keyword arguments. -/
def irQueryCall : PyCall :=
  ⟨2, ["receptor_arms", "dual_ir", "same_v_gene", "match_columns",
       "distance_key", "sequence_key", "n_jobs", "chunksize"]⟩

/-- Whether a Python call binds against a signature without raising
`TypeError`: no surplus positional argument and no unexpected keyword. -/
def callBinds (call : PyCall) (npos : ℕ) (kw : List String) : Bool :=
  call.npos ≤ npos && call.kwargs.all (fun k => kw.contains k)

/-- A cell whose fields all hold the genuine string `"nan"`. -/
def cellNanStr : Cell := ⟨"c1", true, fun _ => some "nan"⟩

/-- A cell whose fields are all missing. -/
def cellMissing : Cell := ⟨"c2", true, fun _ => none⟩

example : getOk (makeClonotypeTable cfgGroup [cellG1, cellG2]) (⟨[], []⟩, []) =
    (tblGroup, [["cell1"], ["cell2"]]) := by decide
example : (distRowDense envGroup tblGroup 0).getD 1 FVal.nan = FVal.fin 1 := by decide
example : getOk (makeClonotypeTable cfgSingle [cellSingle]) (⟨[], []⟩, []) =
    (⟨["IR_VJ_1_junction_aa"], [["AAA"]]⟩, [[]]) := by decide
example : exceptOk (makeClonotypeTable cfgSingle [cellOrphan]) = true := by decide
example : exceptOk (makeClonotypeTable cfgDualAll [cellOrphan]) = false := by decide
example : getOk (makeClonotypeTable cfgVGene [cellV1, cellV2]) (⟨[], []⟩, []) =
    (tblVGene, [["cell1"], ["cell2"]]) := by decide
example : (distRowDense envVGene tblVGene 0).getD 1 FVal.nan = FVal.fin 1 := by decide
example : hasDistance envTwo tblTwo 0 = [0] := by decide
example : computeDistances envTwo tblTwo = [[(0, FVal.fin 1)], [(1, FVal.fin 1)]] := by decide

/-! ## General-purpose lemmas -/

theorem getD_map_range {α : Type} (n : ℕ) (f : ℕ → α) {k : ℕ} (hk : k < n) (d : α) :
    ((List.range n).map f).getD k d = f k := by
  rw [List.getD_eq_getElem _ _ (by simpa using hk)]
  simp

theorem isNan_zeroToInf (v : FVal) : isNan (zeroToInf v) = isNan v := by
  unfold zeroToInf
  split
  · rename_i h
    subst h
    rfl
  · rfl

theorem countP_isNan_map_zeroToInf (l : List FVal) :
    (l.map zeroToInf).countP (fun v => isNan v) = l.countP (fun v => isNan v) := by
  rw [List.countP_map]
  congr 1
  funext v
  exact isNan_zeroToInf v

theorem fmax2_not_nan {a b : FVal} (ha : isNan a = false) (hb : isNan b = false) :
    isNan (fmax2 a b) = false := by
  cases a <;> cases b <;> simp_all [fmax2, isNan]

theorem foldl_fmax2_not_nan (t : List FVal) :
    ∀ (h : FVal), isNan h = false → (∀ v ∈ t, isNan v = false) →
      isNan (t.foldl fmax2 h) = false := by
  induction t with
  | nil => intro h hh _; exact hh
  | cons x t ih =>
    intro h hh hall
    simp only [List.foldl_cons]
    exact ih _ (fmax2_not_nan hh (hall x (by simp))) (fun v hv => hall v (by simp [hv]))

theorem nanmax_not_nan {l : List FVal} (h : ∃ v ∈ l, isNan v = false) :
    isNan (nanmax l) = false := by
  obtain ⟨v, hv, hnv⟩ := h
  have hmem : v ∈ l.filter (fun v => !isNan v) :=
    List.mem_filter.mpr ⟨hv, by simp [hnv]⟩
  unfold nanmax
  cases hl : l.filter (fun v => !isNan v) with
  | nil => rw [hl] at hmem; cases hmem
  | cons h0 t0 =>
    have hh0 : isNan h0 = false := by
      have : h0 ∈ l.filter (fun v => !isNan v) := by rw [hl]; simp
      simpa using (List.mem_filter.mp this).2
    refine foldl_fmax2_not_nan t0 h0 hh0 (fun w hw => ?_)
    have : w ∈ l.filter (fun v => !isNan v) := by rw [hl]; simp [hw]
    simpa using (List.mem_filter.mp this).2

theorem nanmax_all_nan {l : List FVal} (h : ∀ v ∈ l, isNan v = true) :
    nanmax l = FVal.nan := by
  unfold nanmax
  have : l.filter (fun v => !isNan v) = [] :=
    List.filter_eq_nil_iff.mpr (fun v hv => by simp [h v hv])
  rw [this]

/-! ## Claim C1: the AND-reduce same-count gate -/

/-- Claim C1, counterexample: at a clonotype whose own chain-presence
pattern has zero missing chains, an AND-reduce column whose candidates are
all missing has missing-count 2, different from 0, yet the result is `nan`,
not 0 as the claim states. -/
theorem claim1_and_reduce_counterexample :
    chainCount tblChains 0 ["IR_VJ_1_junction_aa", "IR_VJ_2_junction_aa"] = 0 ∧
    (colAt [[FVal.nan], [FVal.nan]] 0).countP (fun v => isNan v) = 2 ∧
    reduceAnd tblChains 0 ["IR_VJ_1_junction_aa", "IR_VJ_2_junction_aa"]
      [[FVal.nan], [FVal.nan]] = [FVal.nan] ∧
    FVal.nan ≠ FVal.fin 0 := by decide

/-- Claim C1 (amended): for every clonotype and output column, when the
count of missing candidate values differs from the clonotype's own
missing-chain count over the listed columns, the AND-reduce result at that
column is 0 provided at least one candidate there is non-missing, even if
some candidate value is nonzero; if every candidate at the column is
missing, the result is the missing value `nan` instead of 0. -/
theorem claim1_and_reduce_amended (T : CTable) (ct : ℕ) (cols : List String)
    (args : List (List FVal)) (k : ℕ)
    (hk : k < (args.headD []).length)
    (hcount : (colAt args k).countP (fun v => isNan v) ≠ chainCount T ct cols) :
    ((∃ v ∈ colAt args k, isNan v = false) →
        (reduceAnd T ct cols args).getD k FVal.nan = FVal.fin 0)
    ∧ ((∀ v ∈ colAt args k, isNan v = true) →
        (reduceAnd T ct cols args).getD k (FVal.fin 0) = FVal.nan) := by
  have hval : ∀ (d : FVal), (reduceAnd T ct cols args).getD k d =
      maskMul (infToZero (nanmax ((colAt args k).map zeroToInf)))
        (((colAt args k).map zeroToInf).countP (fun v => isNan v)
          == chainCount T ct cols) := by
    intro d
    unfold reduceAnd reduceAndCount
    exact getD_map_range _ _ hk d
  have hcnt : (((colAt args k).map zeroToInf).countP (fun v => isNan v)
      == chainCount T ct cols) = false := by
    rw [countP_isNan_map_zeroToInf]
    simpa using hcount
  constructor
  · rintro ⟨v, hv, hnv⟩
    rw [hval, hcnt]
    have hnn : isNan (nanmax ((colAt args k).map zeroToInf)) = false :=
      nanmax_not_nan ⟨zeroToInf v, List.mem_map_of_mem _ hv,
        by rw [isNan_zeroToInf]; exact hnv⟩
    cases hy : nanmax ((colAt args k).map zeroToInf) with
    | nan => rw [hy] at hnn; simp [isNan] at hnn
    | inf => simp [infToZero, maskMul]
    | fin q => simp [infToZero, maskMul]
  · intro hall
    rw [hval, hcnt]
    have hmax : nanmax ((colAt args k).map zeroToInf) = FVal.nan := by
      refine nanmax_all_nan (fun w hw => ?_)
      obtain ⟨v, hv, rfl⟩ := List.mem_map.mp hw
      rw [isNan_zeroToInf]
      exact hall v hv
    rw [hmax]
    simp [infToZero, maskMul]

/-- Witness for `claim1_and_reduce_amended` at a concrete input. -/
theorem claim1_and_reduce_witness :
    (reduceAnd tblChains 0 ["IR_VJ_1_junction_aa", "IR_VJ_2_junction_aa"]
      [[FVal.fin 5], [FVal.nan]]).getD 0 FVal.nan = FVal.fin 0 :=
  (claim1_and_reduce_amended tblChains 0 _ _ 0 (by decide) (by decide)).1
    ⟨FVal.fin 5, by decide, by decide⟩

/-! ## Claim C2: algebra of the OR-reduce -/

theorem fmin2_inf_left (x : FVal) : fmin2 FVal.inf x = x := by
  cases x <;> rfl

theorem fmin2_self (x : FVal) : fmin2 x x = x := by
  cases x <;> simp [fmin2]

theorem fmin2_right_comm (i x y : FVal) :
    fmin2 (fmin2 i x) y = fmin2 (fmin2 i y) x := by
  cases i <;> cases x <;> cases y <;>
    simp [fmin2, min_comm, min_assoc, min_left_comm, min_right_comm]

theorem foldl_fmin2_perm {l₁ l₂ : List FVal} (h : l₁.Perm l₂) :
    ∀ i : FVal, l₁.foldl fmin2 i = l₂.foldl fmin2 i := by
  induction h with
  | nil => intro i; rfl
  | cons x _ ih => intro i; simp only [List.foldl_cons]; exact ih _
  | swap x y l => intro i; simp only [List.foldl_cons]; rw [fmin2_right_comm]
  | trans _ _ ih1 ih2 => intro i; rw [ih1, ih2]

theorem all_of_perm {α : Type} {l₁ l₂ : List α} (h : l₁.Perm l₂) (p : α → Bool) :
    l₁.all p = l₂.all p := by
  cases hb1 : l₁.all p <;> cases hb2 : l₂.all p <;> try rfl
  · have h2 : l₁.all p = true :=
      List.all_eq_true.mpr (fun x hx => List.all_eq_true.mp hb2 x (h.mem_iff.mp hx))
    rw [hb1] at h2
    cases h2
  · have h2 : l₂.all p = true :=
      List.all_eq_true.mpr (fun x hx => List.all_eq_true.mp hb1 x (h.mem_iff.mpr hx))
    rw [hb2] at h2
    cases h2

theorem nanmin_perm {l₁ l₂ : List FVal} (h : l₁.Perm l₂) : nanmin l₁ = nanmin l₂ := by
  unfold nanmin
  rw [all_of_perm h]
  split
  · rfl
  · exact foldl_fmin2_perm (h.filter _) _

theorem nanmin_dup (x : FVal) (l : List FVal) :
    nanmin (x :: x :: l) = nanmin (x :: l) := by
  unfold nanmin
  cases hx : isNan x with
  | false =>
    have hall : ((x :: x :: l).all (fun v => isNan v))
        = ((x :: l).all (fun v => isNan v)) := by
      simp [List.all_cons, hx]
    rw [hall]
    split
    · rfl
    · simp only [List.filter_cons, hx, Bool.not_false, if_true, List.foldl_cons]
      congr 1
      rw [fmin2_inf_left, fmin2_self]
  | true =>
    have hall : ((x :: x :: l).all (fun v => isNan v))
        = ((x :: l).all (fun v => isNan v)) := by
      simp [List.all_cons, hx]
    rw [hall]
    split
    · rfl
    · simp [List.filter_cons, hx]

theorem foldl_fmin2_fin (L : List FVal) :
    ∀ (a : ℚ), (∀ v ∈ L, isNan v = false) →
      L.foldl fmin2 (FVal.fin a) = FVal.fin ((finVals L).foldl min a) := by
  induction L with
  | nil => intro a _; rfl
  | cons v t ih =>
    intro a hall
    cases v with
    | nan =>
      have := hall FVal.nan (by simp)
      simp [isNan] at this
    | inf =>
      have h1 : finVals (FVal.inf :: t) = finVals t := by simp [finVals]
      have h2 : fmin2 (FVal.fin a) FVal.inf = FVal.fin a := rfl
      simp only [List.foldl_cons, h2, h1]
      exact ih a (fun w hw => hall w (by simp [hw]))
    | fin b =>
      have h1 : finVals (FVal.fin b :: t) = b :: finVals t := by simp [finVals]
      have h2 : fmin2 (FVal.fin a) (FVal.fin b) = FVal.fin (min a b) := rfl
      simp only [List.foldl_cons, h2, h1]
      exact ih (min a b) (fun w hw => hall w (by simp [hw]))

theorem foldl_fmin2_inf (L : List FVal) (hall : ∀ v ∈ L, isNan v = false) :
    L.foldl fmin2 FVal.inf =
      (match finVals L with
        | [] => FVal.inf
        | b :: t => FVal.fin (t.foldl min b)) := by
  induction L with
  | nil => rfl
  | cons v t ih =>
    cases v with
    | nan =>
      have := hall FVal.nan (by simp)
      simp [isNan] at this
    | inf =>
      have h1 : finVals (FVal.inf :: t) = finVals t := by simp [finVals]
      have h2 : fmin2 FVal.inf FVal.inf = FVal.inf := rfl
      simp only [List.foldl_cons, h2, h1]
      exact ih (fun w hw => hall w (by simp [hw]))
    | fin b =>
      have h1 : finVals (FVal.fin b :: t) = b :: finVals t := by simp [finVals]
      have h2 : fmin2 FVal.inf (FVal.fin b) = FVal.fin b := rfl
      simp only [List.foldl_cons, h2, h1]
      exact foldl_fmin2_fin t b (fun w hw => hall w (by simp [hw]))

theorem finVals_filter_zeroToInf (col : List FVal) :
    finVals (((col.map zeroToInf)).filter (fun v => !isNan v)) = nonzeros col := by
  induction col with
  | nil => rfl
  | cons v t ih =>
    cases v with
    | nan => simpa [zeroToInf, isNan, nonzeros, finVals] using ih
    | inf => simpa [zeroToInf, isNan, nonzeros, finVals] using ih
    | fin q =>
      by_cases hq : q = 0
      · subst hq
        simpa [zeroToInf, isNan, nonzeros, finVals] using ih
      · simpa [zeroToInf, isNan, nonzeros, finVals, hq] using ih

theorem nonzeros_of_all_nan {col : List FVal}
    (h : ∀ v ∈ col, isNan v = true) : nonzeros col = [] := by
  refine List.filterMap_eq_nil_iff.mpr (fun v hv => ?_)
  have := h v hv
  cases v <;> simp_all [isNan]

theorem foldl_min_mem (t : List ℚ) : ∀ (b : ℚ), t.foldl min b ∈ b :: t := by
  induction t with
  | nil => intro b; simp
  | cons x t ih =>
    intro b
    simp only [List.foldl_cons]
    rcases List.mem_cons.mp (ih (min b x)) with h | h
    · rw [h]
      rcases min_choice b x with hc | hc
      · rw [hc]; exact List.mem_cons_self _ _
      · rw [hc]; exact List.mem_cons_of_mem _ (List.mem_cons_self _ _)
    · exact List.mem_cons_of_mem _ (List.mem_cons_of_mem _ h)

theorem foldl_min_le (t : List ℚ) : ∀ (b r : ℚ), r ∈ b :: t → t.foldl min b ≤ r := by
  induction t with
  | nil =>
    intro b r hr
    rcases List.mem_cons.mp hr with h | h
    · simp [h]
    · cases h
  | cons x t ih =>
    intro b r hr
    simp only [List.foldl_cons]
    have hbase : List.foldl min (min b x) t ≤ min b x :=
      ih (min b x) (min b x) (List.mem_cons_self _ _)
    rcases List.mem_cons.mp hr with h | h
    · subst h
      exact le_trans hbase (min_le_left _ _)
    · rcases List.mem_cons.mp h with h2 | h2
      · subst h2
        exact le_trans hbase (min_le_right _ _)
      · exact ih (min b x) r (List.mem_cons_of_mem _ h2)

theorem mem_filter_not_nan {col : List FVal} {v : FVal}
    (hv : v ∈ col.filter (fun v => !isNan v)) : isNan v = false := by
  simpa using (List.mem_filter.mp hv).2

theorem nanmin_zeroToInf_spec (col : List FVal) :
    (nonzeros col ≠ [] →
      ∃ q, infToZero (nanmin (col.map zeroToInf)) = FVal.fin q ∧
        q ∈ nonzeros col ∧ ∀ r ∈ nonzeros col, q ≤ r)
    ∧ (nonzeros col = [] → (∃ v ∈ col, isNan v = false) →
      infToZero (nanmin (col.map zeroToInf)) = FVal.fin 0) := by
  constructor
  · intro hne
    have hnotall : ((col.map zeroToInf).all (fun v => isNan v)) = false := by
      cases hall : (col.map zeroToInf).all (fun v => isNan v) with
      | false => rfl
      | true =>
        exfalso
        refine hne (nonzeros_of_all_nan (fun v hv => ?_))
        have := List.all_eq_true.mp hall (zeroToInf v) (List.mem_map_of_mem _ hv)
        rwa [isNan_zeroToInf] at this
    unfold nanmin
    rw [hnotall]
    rw [if_neg (by simp)]
    rw [foldl_fmin2_inf _ (fun v hv => mem_filter_not_nan hv), finVals_filter_zeroToInf]
    cases hnz : nonzeros col with
    | nil => exact absurd hnz hne
    | cons b t =>
      refine ⟨t.foldl min b, by simp [infToZero], foldl_min_mem t b, ?_⟩
      intro r hr
      exact foldl_min_le t b r hr
  · intro hnz hex
    obtain ⟨v, hv, hnv⟩ := hex
    have hnotall : ((col.map zeroToInf).all (fun v => isNan v)) = false := by
      cases hall : (col.map zeroToInf).all (fun v => isNan v) with
      | false => rfl
      | true =>
        exfalso
        have := List.all_eq_true.mp hall (zeroToInf v) (List.mem_map_of_mem _ hv)
        rw [isNan_zeroToInf] at this
        rw [hnv] at this
        cases this
    unfold nanmin
    rw [hnotall]
    rw [if_neg (by simp)]
    rw [foldl_fmin2_inf _ (fun w hw => mem_filter_not_nan hw), finVals_filter_zeroToInf]
    rw [hnz]
    simp [infToZero]

/-- Claim C2, counterexample: a column whose only candidate is missing has
every candidate "zero or missing", yet OR-reduce returns `nan`, not 0 as
the claim states. -/
theorem claim2_or_reduce_counterexample :
    (∀ v ∈ [FVal.nan], v = FVal.fin 0 ∨ isNan v = true) ∧
    reduceOr [[FVal.nan]] = [FVal.nan] ∧
    [FVal.nan] ≠ [FVal.fin 0] := by decide

/-- Claim C2 (amended): OR-reduce is, at every output column, commutative
and idempotent over its operand set; it returns the minimum of the nonzero,
non-missing candidate values, and returns 0 when every candidate is zero or
missing provided at least one candidate is non-missing (when every candidate
is missing the result is the missing value `nan` rather than 0); in
particular OR-reduce(0, 3, 0) = 3 and OR-reduce(0, 0) = 0. -/
theorem claim2_or_reduce_amended :
    (∀ (m : ℕ) (args args' : List (List FVal)), args.Perm args' →
        (∀ a ∈ args, a.length = m) → reduceOr args = reduceOr args')
    ∧ (∀ (a : List FVal) (args : List (List FVal)),
        reduceOr (a :: a :: args) = reduceOr (a :: args))
    ∧ (∀ (args : List (List FVal)) (k : ℕ), k < (args.headD []).length →
        ((nonzeros (colAt args k) ≠ [] →
          ∃ q, (reduceOr args).getD k FVal.nan = FVal.fin q ∧
            q ∈ nonzeros (colAt args k) ∧ ∀ r ∈ nonzeros (colAt args k), q ≤ r)
        ∧ (nonzeros (colAt args k) = [] →
            (∃ v ∈ colAt args k, isNan v = false) →
            (reduceOr args).getD k FVal.nan = FVal.fin 0)))
    ∧ reduceOr [[FVal.fin 0], [FVal.fin 3], [FVal.fin 0]] = [FVal.fin 3]
    ∧ reduceOr [[FVal.fin 0], [FVal.fin 0]] = [FVal.fin 0] := by
  refine ⟨?_, ?_, ?_, by decide, by decide⟩
  · intro m args args' hperm hlen
    unfold reduceOr
    have hlen' : (args.headD []).length = (args'.headD []).length := by
      cases args with
      | nil =>
        have h0 : args' = [] := hperm.symm.eq_nil
        rw [h0]
      | cons a t =>
        cases args' with
        | nil => exact absurd (List.perm_nil.mp hperm) (by simp)
        | cons b t' =>
          have hb : b ∈ (a :: t) := hperm.mem_iff.mpr (by simp)
          have ha : a ∈ (a :: t) := by simp
          show a.length = b.length
          rw [hlen a ha, hlen b hb]
    rw [hlen']
    refine List.map_congr_left (fun k _ => ?_)
    exact congrArg infToZero (nanmin_perm ((hperm.map _).map _))
  · intro a args
    unfold reduceOr
    refine List.map_congr_left (fun k _ => ?_)
    refine congrArg infToZero ?_
    show nanmin (List.map zeroToInf (colAt (a :: a :: args) k))
        = nanmin (List.map zeroToInf (colAt (a :: args) k))
    have h1 : colAt (a :: a :: args) k = a.getD k FVal.nan :: colAt (a :: args) k := rfl
    have h2 : colAt (a :: args) k = a.getD k FVal.nan :: colAt args k := rfl
    rw [h1, h2]
    simp only [List.map_cons]
    exact nanmin_dup _ _
  · intro args k hk
    have hval : (reduceOr args).getD k FVal.nan =
        infToZero (nanmin ((colAt args k).map zeroToInf)) := by
      unfold reduceOr
      exact getD_map_range _ _ hk _
    rw [hval]
    exact nanmin_zeroToInf_spec (colAt args k)

/-- Witness for `claim2_or_reduce_amended` at a concrete input: swapping
the two operand rows leaves the OR-reduce unchanged. -/
theorem claim2_or_reduce_witness :
    reduceOr [[FVal.fin 2], [FVal.fin 5]] = reduceOr [[FVal.fin 5], [FVal.fin 2]] :=
  claim2_or_reduce_amended.1 1 _ _ (List.Perm.swap _ _ _) (by decide)

/-! ## Claims C3 and C4: the unused within-group and v-gene constraints -/

/-- Claim C3 (code bug): with `within_group=["sample"]`, two clonotypes
with identical receptor sequences but different `sample` values still
receive the nonzero sequence distance 1: the within-group identity matrix
and lookup table registered in `_add_distance_matrices` /
`_add_lookup_tables` are never consulted by `_dist_for_clonotype`, whose
within-group application (lines 322-326) is commented out under
`# TODO within_group + v_genes!`. -/
theorem claim3_within_group_not_applied :
    getOk (makeClonotypeTable cfgGroup [cellG1, cellG2]) (⟨[], []⟩, [])
        = (tblGroup, [["cell1"], ["cell2"]]) ∧
    seqOf cfgGroup tblGroup 0 Arm.VJ 1 = seqOf cfgGroup tblGroup 1 Arm.VJ 1 ∧
    getVal tblGroup 0 "sample" ≠ getVal tblGroup 1 "sample" ∧
    (distRowDense envGroup tblGroup 0).getD 1 FVal.nan = FVal.fin 1 ∧
    FVal.fin 1 ≠ FVal.fin 0 := by decide

/-- Claim C4 (code bug): with `same_v_gene=True`, two clonotypes with
identical CDR3 sequence but different v-genes still receive the nonzero
sequence distance 1: the v-gene identity matrix and lookup tables
registered in `_add_distance_matrices` / `_add_lookup_tables` are never
consulted by `_dist_for_clonotype` (`# TODO within_group + v_genes!`). -/
theorem claim4_same_v_gene_not_applied :
    getOk (makeClonotypeTable cfgVGene [cellV1, cellV2]) (⟨[], []⟩, [])
        = (tblVGene, [["cell1"], ["cell2"]]) ∧
    seqOf cfgVGene tblVGene 0 Arm.VJ 1 = seqOf cfgVGene tblVGene 1 Arm.VJ 1 ∧
    getVal tblVGene 0 "IR_VJ_1_v_gene" ≠ getVal tblVGene 1 "IR_VJ_1_v_gene" ∧
    (distRowDense envVGene tblVGene 0).getD 1 FVal.nan = FVal.fin 1 ∧
    FVal.fin 1 ≠ FVal.fin 0 := by decide

/-! ## Claim C7: the cell-index mapping with a single clonotype column -/

/-- Claim C7 (code bug): with exactly one clonotype column the pandas
`groupby.indices` dict is keyed by scalar values while `itertuples`
produces 1-tuples, so `.get(ct_tuple, [])` always falls back to the empty
list: the only receptor-bearing cell appears in no entry of the
cell-index array. -/
theorem claim7_single_column_empty_indices :
    (clonotypeCols cfgSingle).length = 1 ∧
    cellSingle.has_ir = true ∧
    getOk (makeClonotypeTable cfgSingle [cellSingle]) (⟨[], []⟩, [])
        = (⟨["IR_VJ_1_junction_aa"], [["AAA"]]⟩, [[]]) ∧
    ¬ ("cell1" ∈ ([] : List String)) := by decide

/-! ## Claim C8: the cross-dataset constructor signature -/

/-- Claim C8 (code bug): the constructor call `ir_query` makes — with a
second positional `reference` dataset and a `match_columns` keyword — does
not bind against `ClonotypeNeighbors.__init__`, which accepts a single
positional parameter and has no `match_columns` (or `chunksize`) keyword;
every such construction raises `TypeError` instead of succeeding. -/
theorem claim8_init_call_mismatch :
    callBinds irQueryCall clonotypeNeighborsInitPos clonotypeNeighborsInitKw = false ∧
    irQueryCall.kwargs.contains "match_columns" = true ∧
    clonotypeNeighborsInitKw.contains "match_columns" = false ∧
    clonotypeNeighborsInitPos < irQueryCall.npos := by decide

/-! ## Lemmas on `findPos` and `dedupKeys` -/

theorem findPos_eq_none {α : Type} [DecidableEq α] :
    ∀ {l : List α} {a : α}, findPos l a = none ↔ a ∉ l := by
  intro l a
  induction l with
  | nil => simp [findPos]
  | cons x xs ih =>
    simp only [findPos]
    by_cases hx : x = a
    · subst hx
      simp
    · rw [if_neg hx]
      constructor
      · intro h hmem
        have h0 : findPos xs a = none := by
          cases hfp : findPos xs a with
          | none => rfl
          | some k => rw [hfp] at h; cases h
        rcases List.mem_cons.mp hmem with h1 | h1
        · exact hx h1.symm
        · exact (ih.mp h0) h1
      · intro h
        have hnx : a ∉ xs := fun hm => h (List.mem_cons_of_mem _ hm)
        rw [ih.mpr hnx]
        rfl

theorem findPos_some_mem {α : Type} [DecidableEq α] {l : List α} {a : α} {k : ℕ}
    (h : findPos l a = some k) : a ∈ l := by
  by_contra hm
  rw [findPos_eq_none.mpr hm] at h
  cases h

theorem findPos_get {α : Type} [DecidableEq α] :
    ∀ {l : List α} {a : α} {k : ℕ}, findPos l a = some k →
      ∃ h : k < l.length, l.get ⟨k, h⟩ = a := by
  intro l
  induction l with
  | nil => intro a k h; cases h
  | cons x xs ih =>
    intro a k h
    simp only [findPos] at h
    by_cases hx : x = a
    · rw [if_pos hx] at h
      cases h
      exact ⟨by simp, hx⟩
    · rw [if_neg hx] at h
      cases hfp : findPos xs a with
      | none => rw [hfp] at h; cases h
      | some k0 =>
        rw [hfp] at h
        simp only [Option.map_some'] at h
        cases h
        obtain ⟨hlt, hget⟩ := ih hfp
        exact ⟨by simpa using Nat.succ_lt_succ hlt, by simpa using hget⟩

theorem dedup_foldl_mem (l : List (List String)) :
    ∀ (acc : List (List String)) (a : List String),
      (a ∈ l.foldl (fun acc k => if k ∈ acc then acc else acc ++ [k]) acc) ↔
        (a ∈ acc ∨ a ∈ l) := by
  induction l with
  | nil => intro acc a; simp
  | cons k t ih =>
    intro acc a
    simp only [List.foldl_cons, List.mem_cons]
    rw [ih]
    by_cases hk : k ∈ acc
    · rw [if_pos hk]
      constructor
      · rintro (h | h)
        · exact Or.inl h
        · exact Or.inr (Or.inr h)
      · rintro (h | h | h)
        · exact Or.inl h
        · subst h; exact Or.inl hk
        · exact Or.inr h
    · rw [if_neg hk]
      constructor
      · rintro (h | h)
        · rcases List.mem_append.mp h with h1 | h1
          · exact Or.inl h1
          · exact Or.inr (Or.inl (List.mem_singleton.mp h1))
        · exact Or.inr (Or.inr h)
      · rintro (h | h | h)
        · exact Or.inl (List.mem_append.mpr (Or.inl h))
        · exact Or.inl (List.mem_append.mpr (Or.inr (List.mem_singleton.mpr h)))
        · exact Or.inr h

theorem mem_dedupKeys {l : List (List String)} {a : List String} :
    a ∈ dedupKeys l ↔ a ∈ l := by
  unfold dedupKeys
  rw [dedup_foldl_mem]
  simp

/-- The key of a cell reads back, at an in-range position, as the
normalised attribute at the corresponding column. -/
theorem keyOf_getD (cols : List String) (x : Cell) {k : ℕ}
    (hk : k < cols.length) (d : String) :
    (keyOf cols x).getD k "" = normNa (x.attrs (cols.getD k d)) := by
  unfold keyOf
  rw [List.getD_eq_getElem _ _ (by simpa using hk), List.getElem_map,
    List.getD_eq_getElem _ _ hk]

/-- `getVal` on a row that is the key of cell `x` returns the normalised
attribute of `x` at that column. -/
theorem getVal_key {cols : List String} {rows : List (List String)} {r : ℕ}
    {x : Cell} {col : String} (hcol : col ∈ cols)
    (hrow : rows.getD r [] = keyOf cols x) :
    getVal ⟨cols, rows⟩ r col = normNa (x.attrs col) := by
  unfold getVal
  cases hfp : findPos cols col with
  | none => exact absurd hcol (findPos_eq_none.mp hfp)
  | some k =>
    obtain ⟨hk, hgetk⟩ := findPos_get hfp
    show (rows.getD r []).getD k "" = _
    rw [hrow, keyOf_getD cols x hk ""]
    congr 1
    rw [List.getD_eq_getElem _ _ hk]
    rw [← hgetk]
    rfl

theorem one_mem_dualIrCols (c : Config) : 1 ∈ dualIrCols c := by
  unfold dualIrCols
  split <;> simp

theorem two_mem_dualIrCols {c : Config} (h : c.dual_ir ≠ DualIr.primary_only) :
    2 ∈ dualIrCols c := by
  unfold dualIrCols
  rw [if_neg h]
  simp

theorem cdr3Col_mem_clonotypeCols {c : Config} {arm : Arm} {i : ℕ}
    (harm : arm ∈ armCols c) (hi : i ∈ dualIrCols c) :
    cdr3Col c.sequence_key arm i ∈ clonotypeCols c := by
  unfold clonotypeCols
  refine List.mem_append.mpr (Or.inl (List.mem_append.mpr (Or.inl ?_)))
  unfold cdr3Cols
  exact List.mem_flatMap.mpr ⟨arm, harm, List.mem_map.mpr ⟨i, hi, rfl⟩⟩

/-! ## Claim C6: the orphan-secondary-chain consistency error -/

/-- Claim C6, counterexample: a cell with a secondary VJ sequence and no
primary VJ sequence passes table construction without error when
`dual_ir="primary_only"` — the consistency check of lines 119-129 is
guarded by `if "2" in self._dual_ir_cols` and does not run. -/
theorem claim6_orphan_secondary_counterexample :
    cellOrphan.has_ir = true ∧
    normNa (cellOrphan.attrs (cdr3Col "junction_aa" Arm.VJ 1)) = "nan" ∧
    normNa (cellOrphan.attrs (cdr3Col "junction_aa" Arm.VJ 2)) = "CCC" ∧
    cfgSingle.dual_ir = DualIr.primary_only ∧
    exceptOk (makeClonotypeTable cfgSingle [cellOrphan]) = true := by decide

/-- Claim C6 (amended): for every input in which some receptor-bearing cell
records a secondary-chain sequence for an arm while the primary-chain
sequence of that arm is missing, table construction fails — provided the
dual-chain policy is not `primary_only` and the arm is among the considered
receptor arms; under `primary_only` (or for an arm outside the considered
arms) the check does not run and no error is raised. -/
theorem claim6_orphan_secondary_amended (cfg : Config) (cells : List Cell)
    (x : Cell) (arm : Arm)
    (hnames : (cells.map Cell.name).Nodup)
    (hmem : x ∈ cells) (hir : x.has_ir = true)
    (hdual : cfg.dual_ir ≠ DualIr.primary_only)
    (harm : arm ∈ armCols cfg)
    (h1 : normNa (x.attrs (cdr3Col cfg.sequence_key arm 1)) = "nan")
    (h2 : normNa (x.attrs (cdr3Col cfg.sequence_key arm 2)) ≠ "nan") :
    exceptOk (makeClonotypeTable cfg cells) = false := by
  have hkey : keyOf (clonotypeCols cfg) x ∈ clonotypeKeys cfg cells := by
    unfold clonotypeKeys
    exact mem_dedupKeys.mpr
      (List.mem_map_of_mem _ (List.mem_filter.mpr ⟨hmem, hir⟩))
  obtain ⟨r, hr, hget⟩ := List.getElem_of_mem hkey
  have hrow : (clonotypeKeys cfg cells).getD r [] = keyOf (clonotypeCols cfg) x := by
    rw [List.getD_eq_getElem _ _ hr]
    exact hget
  have hv1 : getVal (clonotypeTable cfg cells) r (cdr3Col cfg.sequence_key arm 1)
      = "nan" := by
    unfold clonotypeTable
    rw [getVal_key (cdr3Col_mem_clonotypeCols harm (one_mem_dualIrCols cfg)) hrow]
    exact h1
  have hv2 : getVal (clonotypeTable cfg cells) r (cdr3Col cfg.sequence_key arm 2)
      ≠ "nan" := by
    unfold clonotypeTable
    rw [getVal_key (cdr3Col_mem_clonotypeCols harm (two_mem_dualIrCols hdual)) hrow]
    exact h2
  have hviol : secondaryViolation cfg (clonotypeTable cfg cells) = true := by
    unfold secondaryViolation
    refine Bool.and_eq_true_iff.mpr ⟨?_, ?_⟩
    · unfold dualIrCols
      rw [if_neg hdual]
      decide
    · refine List.any_eq_true.mpr ⟨arm, harm, ?_⟩
      refine List.any_eq_true.mpr ⟨r, List.mem_range.mpr ?_, ?_⟩
      · show r < (clonotypeKeys cfg cells).length
        exact hr
      · rw [Bool.and_eq_true_iff]
        constructor
        · exact beq_iff_eq.mpr hv1
        · simpa using hv2
  have hne : (clonotypeKeys cfg cells).isEmpty = false := by
    cases hk : clonotypeKeys cfg cells with
    | nil => rw [hk] at hkey; cases hkey
    | cons a t => rfl
  unfold makeClonotypeTable
  rw [if_pos hnames, hne, if_neg (by simp), hviol, if_pos rfl]
  rfl

/-- Witness for `claim6_orphan_secondary_amended`: with `dual_ir="all"`,
the orphan-secondary cell makes table construction fail. -/
theorem claim6_orphan_secondary_witness :
    exceptOk (makeClonotypeTable cfgDualAll [cellOrphan]) = false :=
  claim6_orphan_secondary_amended cfgDualAll [cellOrphan] cellOrphan Arm.VJ
    (by decide) (List.mem_singleton.mpr rfl) rfl (by decide) (by decide)
    (by decide) (by decide)

/-! ## Claim C5: the support of the aggregated sparse row -/

/-- Claim C5 (confirmed): the row `_dist_for_clonotype` returns is zero at
every column outside the `has_distance` mask (the union, over the chain-pair
lookups, of the columns with a nonzero lookup entry), and every nonzero
column of the row lies inside the mask. -/
theorem claim5_row_support (e : DistEnv) (T : CTable) (ct j : ℕ)
    (hj : j < T.rows.length) :
    (j ∉ hasDistance e T ct →
        (distRowDense e T ct).getD j FVal.nan = FVal.fin 0)
    ∧ ((distRowDense e T ct).getD j (FVal.fin 0) ≠ FVal.fin 0 →
        j ∈ hasDistance e T ct) := by
  have hval : ∀ d, (distRowDense e T ct).getD j d =
      (match findPos (hasDistance e T ct) j with
        | some k => (distResVals e T ct).getD k (FVal.fin 0)
        | none => FVal.fin 0) := by
    intro d
    unfold distRowDense
    exact getD_map_range _ _ hj d
  constructor
  · intro hnotin
    rw [hval, findPos_eq_none.mpr hnotin]
  · intro hne
    rw [hval] at hne
    cases hfp : findPos (hasDistance e T ct) j with
    | none => rw [hfp] at hne; simp at hne
    | some k => exact findPos_some_mem hfp

/-- Witness for `claim5_row_support`: concretely, clonotype 1 of `tblTwo`
is outside the `has_distance` mask of clonotype 0, and the returned row is
0 there. -/
theorem claim5_row_support_witness :
    (1 ∉ hasDistance envTwo tblTwo 0) ∧
    (distRowDense envTwo tblTwo 0).getD 1 FVal.nan = FVal.fin 0 :=
  ⟨by decide, (claim5_row_support envTwo tblTwo 0 1 (by decide)).1 (by decide)⟩

/-! ## Claim C9: the shape of `compute_distances` -/

/-- Claim C9 (confirmed): `compute_distances` produces one row per
clonotype index, in table order; row `i` is the aggregator's sparse row for
clonotype `i` with its explicit zero entries removed; and every stored
entry of the result is nonzero with a column index inside the square
clonotype range. -/
theorem claim9_compute_shape (e : DistEnv) (T : CTable) :
    (computeDistances e T).length = T.rows.length
    ∧ (∀ i, i < T.rows.length →
        (computeDistances e T).getD i [] =
          (sparseRow e T i).filter (fun p => !(p.2 == FVal.fin 0)))
    ∧ (∀ i, ∀ p ∈ (computeDistances e T).getD i [],
        p.2 ≠ FVal.fin 0 ∧ p.1 < T.rows.length) := by
  have hrow : ∀ i, i < T.rows.length →
      (computeDistances e T).getD i [] =
        (sparseRow e T i).filter (fun p => !(p.2 == FVal.fin 0)) := by
    intro i hi
    unfold computeDistances eliminateZeros
    rw [List.map_map]
    exact getD_map_range _ _ hi _
  refine ⟨?_, hrow, ?_⟩
  · unfold computeDistances eliminateZeros
    simp
  · intro i p hp
    by_cases hi : i < T.rows.length
    · rw [hrow i hi] at hp
      obtain ⟨a, b⟩ := p
      have hmem := List.mem_filter.mp hp
      refine ⟨by simpa using hmem.2, ?_⟩
      have hzip : a ∈ hasDistance e T i := (List.of_mem_zip hmem.1).1
      have : a ∈ List.range T.rows.length := by
        unfold hasDistance at hzip
        exact (List.mem_filter.mp hzip).1
      simpa using List.mem_range.mp this
    · have hemp : (computeDistances e T).getD i [] = [] := by
        apply List.getD_eq_default
        unfold computeDistances eliminateZeros
        simpa using Nat.le_of_not_lt hi
      rw [hemp] at hp
      cases hp

/-- Witness for `claim9_compute_shape` at a concrete engine. -/
theorem claim9_compute_shape_witness :
    (computeDistances envTwo tblTwo).getD 0 [] =
      (sparseRow envTwo tblTwo 0).filter (fun p => !(p.2 == FVal.fin 0)) :=
  (claim9_compute_shape envTwo tblTwo).2.1 0 (by decide)

/-! ## Claim C10: the string/"nan" normalisation of table values -/

/-- Claim C10 (confirmed): every value of the built clonotype table is the
normalised string of some originating cell's value at that column, with
missing values becoming the literal string `"nan"`; consequently a genuine
string value `"nan"` is indistinguishable from a missing value, and cells
differing only in missing-versus-`"nan"` fields receive the same grouping
key (they collapse into the same clonotype row). -/
theorem claim10_nan_normalization :
    (∀ (cfg : Config) (cells : List Cell) (T : CTable) (idx : List (List String)),
        makeClonotypeTable cfg cells = Except.ok (T, idx) →
        ∀ r ∈ T.rows, ∀ k, k < r.length →
          ∃ x ∈ cells, x.has_ir = true ∧
            r.getD k "" = normNa (x.attrs (T.cols.getD k "")))
    ∧ normNa none = "nan"
    ∧ (∀ (x y : Cell) (cols : List String),
        (∀ col ∈ cols, normNa (x.attrs col) = normNa (y.attrs col)) →
        keyOf cols x = keyOf cols y)
    ∧ normNa (some "nan") = normNa none := by
  refine ⟨?_, rfl, ?_, rfl⟩
  · intro cfg cells T idx hok r hr k hk
    unfold makeClonotypeTable at hok
    by_cases h1 : (cells.map Cell.name).Nodup
    · rw [if_pos h1] at hok
      by_cases h2 : (clonotypeKeys cfg cells).isEmpty = true
      · rw [if_pos h2] at hok
        cases hok
      · rw [if_neg h2] at hok
        by_cases h3 : secondaryViolation cfg (clonotypeTable cfg cells) = true
        · rw [if_pos h3] at hok
          cases hok
        · rw [if_neg h3] at hok
          simp only [Except.ok.injEq, Prod.mk.injEq] at hok
          obtain ⟨hT, _⟩ := hok
          subst hT
          have hr' : r ∈ clonotypeKeys cfg cells := hr
          obtain ⟨x, hx, hxr⟩ :=
        List.mem_map.mp (mem_dedupKeys.mp hr')
          have hxcell := List.mem_filter.mp hx
          refine ⟨x, hxcell.1, by simpa using hxcell.2, ?_⟩
          subst hxr
          have hk' : k < (clonotypeCols cfg).length := by
            simpa [keyOf] using hk
          exact keyOf_getD (clonotypeCols cfg) x hk' ""
    · rw [if_neg h1] at hok
      cases hok
  · intro x y cols h
    unfold keyOf
    exact List.map_congr_left (fun col hc => h col hc)

/-- Witness for `claim10_nan_normalization`: a cell whose field genuinely
holds the string `"nan"` gets the same grouping key as a cell whose field
is missing. -/
theorem claim10_nan_normalization_witness :
    keyOf ["x_col"] cellNanStr = keyOf ["x_col"] cellMissing :=
  claim10_nan_normalization.2.2.1 cellNanStr cellMissing ["x_col"]
    (fun _ _ => rfl)

end Scirpy
